import Mathlib

/-
Verification of the TnTThreadPool worker pool (src/TnTThreadPool.h).

Shallow embedding: the pool's shared state (member variables of class
TnTThreadPool, lines 258-270 of the header) is a record; each member
function is a state transformer translated from its body.  Blocking
operations (condition-variable waits) return `Option PoolState`: `some`
is the state at the moment the call returns, `none` means the wait can
never be satisfied, i.e. the call blocks forever (or the process died).
Worker activity is modelled by `executorStep`, one iteration of the
`executor()` loop (lines 194-216), taken atomically: the lock-protected
dequeue and the out-of-lock job call of a single iteration.  A job that
throws has no handler in `executor`, so the exception leaves the thread
function and the process terminates: the model records this in the
ghost flag `crashed`, after which nothing further executes.
-/

namespace TnT

/-- One queued closure (`std::function<void()>`), as built by the submit
paths.  `run jid thr` is a fire-and-forget closure from `submit` (with a
ghost identity `jid`); `fulfill pid f arg thr` is the wrapper built by
`submitForReturn` (lines 74-83): when called it computes `f arg` and
writes it into promise cell `pid`.  `thr = true` means the user job
throws when called. -/
inductive JobAct where
  | run (jid : Nat) (thr : Bool)
  | fulfill (pid : Nat) (f : Int → Int) (arg : Int) (thr : Bool)

/-- Whether calling this closure raises an exception. -/
def JobAct.throwsB : JobAct → Bool
  | .run _ t => t
  | .fulfill _ _ _ t => t

/-- Shared state of one `TnTThreadPool` object.  `threads` is
`m_threads.size()` (only the size is observable: emptiness gates
`queueJob`, `getThreadCount` returns it).  `promises` is the set of
promise cells allocated by `submitForReturn`, in allocation order,
`none` while unwritten.  `execLog` (ghost) lists the jobs that have
finished executing, in execution order.  `crashed` (ghost) is set when
an exception escapes a worker. -/
structure PoolState where
  threads : Nat
  jobQueue : List JobAct
  execute : Bool
  pause : Bool
  runningTasks : Nat
  queuedTasks : Nat
  threadCount : Nat
  promises : List (Option Int)
  execLog : List JobAct
  crashed : Bool

/-- Effect of calling one closure on the promise store: `fulfill` writes
`f arg` into its cell, a plain `run` closure writes nothing. -/
def runJobPure (j : JobAct) (ps : List (Option Int)) : List (Option Int) :=
  match j with
  | .run _ _ => ps
  | .fulfill pid f arg _ => ps.set pid (some (f arg))

/-- The `currentJob()` call of the executor loop (lines 210-214): on
normal return the promise effect happens, the job is logged, and
`--m_runningTasks` runs.  If the job throws, the exception propagates
out of `executor` (there is no handler), so the decrement is never
reached and the process terminates (`crashed`). -/
def runJob (j : JobAct) (s : PoolState) : PoolState :=
  if j.throwsB then { s with crashed := true }
  else
    { s with promises := runJobPure j s.promises,
             execLog := s.execLog ++ [j],
             runningTasks := s.runningTasks - 1 }

/-- One iteration of `executor()` (lines 194-216): while `m_execute`,
under the lock either yield (queue empty or paused) or dequeue the
front job (`++m_runningTasks`, pop, `--m_queuedTasks`), then call it
outside the lock.  After a crash nothing runs any more.  The `[]`
branch of the match is unreachable while the counter and the queue
agree (they are only ever updated together under the lock). -/
def executorStep (s : PoolState) : PoolState :=
  if s.crashed then s
  else if s.execute = false then s
  else if s.queuedTasks = 0 ∨ s.pause = true then s
  else
    match s.jobQueue with
    | [] => s
    | j :: rest =>
        runJob j { s with runningTasks := s.runningTasks + 1,
                          jobQueue := rest,
                          queuedTasks := s.queuedTasks - 1 }

/-- Workers taking `n` further loop iterations. -/
def drainSteps : Nat → PoolState → PoolState
  | 0, s => s
  | n + 1, s => drainSteps n (executorStep s)

/-- Cumulative promise-store effect of running a list of jobs in order. -/
def runAll (js : List JobAct) (ps : List (Option Int)) : List (Option Int) :=
  js.foldl (fun acc j => runJobPure j acc) ps

/-- Exact message thrown by `queueJob` (line 222). -/
def shutdownErrorMsg : String :=
  "Attempted to queue a job, but the thread pool was shutdown. Call reset before queuing jobs."

/-- Translation of `queueJob` (lines 218-227): under the lock, throw if
`m_threads` is empty, otherwise `++m_queuedTasks` and push the job at
the back of the queue. -/
def queueJob (j : JobAct) (s : PoolState) : Except String PoolState :=
  if s.threads = 0 then .error shutdownErrorMsg
  else .ok { s with queuedTasks := s.queuedTasks + 1,
                    jobQueue := s.jobQueue ++ [j] }

/-- Translation of `submit` (lines 51-60): the argument-binding cases
reduce to the no-argument case, which calls `queueJob`; a `JobAct` is
already the bound nullary closure. -/
def submit (j : JobAct) (s : PoolState) : Except String PoolState :=
  queueJob j s

/-- Submitting a list of jobs one after another. -/
def submitAll (js : List JobAct) (s : PoolState) : Except String PoolState :=
  match js with
  | [] => .ok s
  | j :: rest =>
      match submit j s with
      | .error e => .error e
      | .ok s1 => submitAll rest s1

/-- Translation of `submitForReturn` (lines 69-86): allocate a fresh
promise, take its future (the returned index, valid immediately), wrap
the job so that on execution `f arg` is written into the cell, and
submit the wrapper.  `thr` says whether the user job throws when run. -/
def submitForReturn (f : Int → Int) (arg : Int) (thr : Bool) (s : PoolState) :
    Nat × Except String PoolState :=
  let pid := s.promises.length
  let s1 := { s with promises := s.promises ++ [none] }
  (pid, submit (.fulfill pid f arg thr) s1)

/-- Reading the future of promise `pid`: `none` while unwritten (a
`wait_for` would time out), `some v` once written (`get()` returns `v`). -/
def promAt : List (Option Int) → Nat → Option Int
  | [], _ => none
  | x :: _, 0 => x
  | _ :: xs, n + 1 => promAt xs n

/-- Translation of `init` (lines 187-192): set `m_execute`, then
`emplace_back` `m_threadCount` new worker threads (appending to
whatever `m_threads` already holds). -/
def init (s : PoolState) : PoolState :=
  { s with execute := true, threads := s.threads + s.threadCount }

/-- Translation of `joinThreadsImpl` (line 229): `m_threads.clear()`
joins (jthread) and discards every worker. -/
def joinThreadsImpl (s : PoolState) : PoolState :=
  { s with threads := 0 }

/-- Translation of `finishAllJobsImpl` (lines 231-236): set
`m_execute = true`, then wait on the condition variable until
`m_runningTasks == 0 && m_queuedTasks == 0`.  The wait returns at once
if the counts are already zero; it can never return if the pool is
paused or has no workers while work is pending (nobody dequeues), or
if a queued job throws (the process dies first): those cases are
`none`.  Otherwise the workers drain the queue and the wait returns. -/
def finishAllJobsImpl (s : PoolState) : Option PoolState :=
  let s1 := { s with execute := true }
  if s1.runningTasks = 0 ∧ s1.queuedTasks = 0 then some s1
  else if s1.pause = true ∨ s1.threads = 0 then none
  else
    let s2 := drainSteps s1.queuedTasks s1
    if s2.runningTasks = 0 ∧ s2.queuedTasks = 0 then some s2 else none

/-- Translation of `finishAllJobs` (line 142): run the impl, drop the
returned lock. -/
def finishAllJobs (s : PoolState) : Option PoolState :=
  finishAllJobsImpl s

/-- Translation of `pauseImpl` (lines 251-256): set `m_pause = true`,
then wait until `m_runningTasks == 0` (workers finish any in-flight
job but dequeue nothing new once the flag is up). -/
def pauseImpl (s : PoolState) : Option PoolState :=
  let s1 := { s with pause := true }
  if s1.runningTasks = 0 then some s1 else none

/-- Translation of `pause` (line 145). -/
def pausePool (s : PoolState) : Option PoolState :=
  pauseImpl s

/-- Translation of `resume` (line 148): `m_pause = false;` and nothing
else. -/
def resume (s : PoolState) : PoolState :=
  { s with pause := false }

/-- Translation of `shutdownImpl` (lines 238-247): `m_execute = true`,
`m_pause = false`, drain via `finishAllJobsImpl`, then
`m_execute = false` and join all threads. -/
def shutdownImpl (s : PoolState) : Option PoolState :=
  match finishAllJobsImpl { s with execute := true, pause := false } with
  | none => none
  | some s1 => some (joinThreadsImpl { s1 with execute := false })

/-- Translation of `shutdown` (line 151). -/
def shutdown (s : PoolState) : Option PoolState :=
  shutdownImpl s

/-- Translation of `reset` (lines 155-159): shut down, set
`m_threadCount` to the new count, re-`init`. -/
def reset (n : Nat) (s : PoolState) : Option PoolState :=
  match shutdownImpl s with
  | none => none
  | some s1 => some (init { s1 with threadCount := n })

/-- Translation of `setThreadCount` (lines 165-178): zero means
`shutdown()`; otherwise store the new count, quiesce via `pauseImpl`,
drop the run flag, join all workers, `init` fresh ones, `resume`. -/
def setThreadCount (n : Nat) (s : PoolState) : Option PoolState :=
  if n = 0 then shutdown s
  else
    match pauseImpl { s with threadCount := n } with
    | none => none
    | some s1 => some (resume (init (joinThreadsImpl { s1 with execute := false })))

/-- Translation of `getThreadCount` (lines 181-184). -/
def getThreadCount (s : PoolState) : Nat :=
  s.threads

/-- Translation of the submission loop of `forEachIndexed`
(lines 128-139): `for(index = from; index < to; index += increment)`
submit one waitable job per index.  The result is the list of indices
submitted, in submission order; `fuel` bounds the iterations and
`none` means the loop is still running after `fuel` iterations (so
`∀ fuel, ... = none` is non-termination). -/
def forEachIndexedLoop (fuel : Nat) (index stop increment : Int) : Option (List Int) :=
  match fuel with
  | 0 => none
  | f + 1 =>
      if index < stop then
        match forEachIndexedLoop f (index + increment) stop increment with
        | none => none
        | some rest => some (index :: rest)
      else some []

/-
Concrete states used to instantiate the theorems.
-/

/-- A fresh pool as built by the constructor with thread count 2: two
workers, empty queue, run flag up. -/
def pool2 : PoolState := ⟨2, [], true, false, 0, 0, 2, [], [], false⟩

/-- A pool with two workers and two plain jobs already queued. -/
def pool2Queued : PoolState :=
  ⟨2, [.run 0 false, .run 1 false], true, false, 0, 2, 2, [], [], false⟩

/-- A pool after `shutdown()`: zero workers, empty queue, run flag down
(the configured thread count is still 4). -/
def shutPool : PoolState := ⟨0, [], false, false, 0, 0, 4, [], [], false⟩

/-- A shut-down pool whose pause flag is also up. -/
def shutPausedPool : PoolState := ⟨0, [], false, true, 0, 0, 4, [], [], false⟩

/-- A two-worker pool whose queue holds one `submitForReturn` wrapper
around a user callable that throws when executed. -/
def crashPool : PoolState :=
  ⟨2, [.fulfill 0 (fun x => x * x) 125 true], true, false, 0, 1, 2, [none], [], false⟩

/-
Helper lemmas about the embedding, shared between the claim theorems.
-/

/-- Submitting a list of jobs to a pool with live workers appends them,
in order, at the back of the queue and bumps the pending counter. -/
theorem submitAll_appends (js : List JobAct) :
    ∀ s : PoolState, s.threads ≠ 0 →
    submitAll js s = .ok { s with jobQueue := s.jobQueue ++ js,
                                  queuedTasks := s.queuedTasks + js.length } := by
  induction js with
  | nil =>
      intro s _
      cases s
      simp [submitAll]
  | cons j rest ih =>
      intro s h
      obtain ⟨th, jq, ex, pa, rt, qt, tc, ps, lg, cr⟩ := s
      simp only at h
      simp only [submitAll, submit, queueJob, if_neg h]
      rw [ih ⟨th, jq ++ [j], ex, pa, rt, qt + 1, tc, ps, lg, cr⟩ h]
      simp [Nat.add_comm, Nat.add_assoc, Nat.add_left_comm]

/-- A non-throwing head job: one executor iteration pops exactly the
queue head, runs it (logging it and applying its promise effect), and
restores the counters. -/
theorem executorStep_dequeues (s : PoolState) (j : JobAct) (rest : List JobAct)
    (hex : s.execute = true) (hp : s.pause = false) (hc : s.crashed = false)
    (hq : s.jobQueue = j :: rest) (hn : s.queuedTasks = s.jobQueue.length)
    (hthr : j.throwsB = false) :
    executorStep s = { s with jobQueue := rest,
                              queuedTasks := rest.length,
                              execLog := s.execLog ++ [j],
                              promises := runJobPure j s.promises } := by
  obtain ⟨th, jq, ex, pa, rt, qt, tc, ps, lg, cr⟩ := s
  simp only at hex hp hc hq hn
  subst hex hp hc hq hn
  simp [executorStep, runJob, hthr]

/-- Draining with one unit of fuel per queued job executes every queued
job, in queue order, leaving the counters at zero. -/
theorem drainSteps_drains (q : List JobAct) :
    ∀ s : PoolState, s.execute = true → s.pause = false → s.crashed = false →
    s.jobQueue = q → s.queuedTasks = q.length →
    q.all (fun j => !j.throwsB) = true →
    drainSteps q.length s =
      { s with jobQueue := [], queuedTasks := 0,
               execLog := s.execLog ++ q,
               promises := runAll q s.promises } := by
  induction q with
  | nil =>
      intro s _ _ _ hq hn _
      obtain ⟨th, jq, ex, pa, rt, qt, tc, ps, lg, cr⟩ := s
      simp only at hq hn
      subst hq hn
      simp [drainSteps, runAll]
  | cons j rest ih =>
      intro s hex hp hc hq hn hall
      rw [List.all_cons, Bool.and_eq_true] at hall
      have hthr : j.throwsB = false := by simpa using hall.1
      have hstep := executorStep_dequeues s j rest hex hp hc hq (by rw [hn, hq]) hthr
      show drainSteps (rest.length + 1) s = _
      rw [drainSteps, hstep]
      rw [ih _ (by simpa using hex) (by simpa using hp) (by simpa using hc) (by simp)
            (by simp) hall.2]
      obtain ⟨th, jq, ex, pa, rt, qt, tc, ps, lg, cr⟩ := s
      simp [runAll]

/-- After a crash (an exception escaped a worker) no further executor
iteration changes anything. -/
theorem drainSteps_of_crashed (n : Nat) :
    ∀ s : PoolState, s.crashed = true → drainSteps n s = s := by
  induction n with
  | zero => intro s _; rfl
  | succ m ih =>
      intro s h
      rw [drainSteps, executorStep, if_pos h, ih s h]

/-- A paused pool is a fixed point of the executor loop: no job is
dequeued while `m_pause` holds, however many iterations workers take. -/
theorem drainSteps_of_paused (n : Nat) :
    ∀ s : PoolState, s.pause = true → drainSteps n s = s := by
  induction n with
  | zero => intro s _; rfl
  | succ m ih =>
      intro s h
      have hstep : executorStep s = s := by
        rw [executorStep]
        split
        · rfl
        · split
          · rfl
          · rw [if_pos (Or.inr h)]
      rw [drainSteps, hstep, ih s h]

/-- Specification of `finishAllJobsImpl` on a quiescent, live state:
the wait returns exactly when the workers have drained the whole queue
in FIFO order. -/
theorem finishAllJobsImpl_drains (s : PoolState)
    (hp : s.pause = false) (hc : s.crashed = false) (hr : s.runningTasks = 0)
    (hn : s.queuedTasks = s.jobQueue.length)
    (ht : s.threads = 0 → s.jobQueue = [])
    (hall : s.jobQueue.all (fun j => !j.throwsB) = true) :
    finishAllJobsImpl s =
      some { s with execute := true, jobQueue := [], queuedTasks := 0,
                    execLog := s.execLog ++ s.jobQueue,
                    promises := runAll s.jobQueue s.promises } := by
  obtain ⟨th, jq, ex, pa, rt, qt, tc, ps, lg, cr⟩ := s
  simp only at hp hc hr hn ht hall ⊢
  subst hp hc hr hn
  cases jq with
  | nil => simp [finishAllJobsImpl, runAll]
  | cons j rest =>
      have hth : th ≠ 0 := by
        intro h0
        exact absurd (ht h0) (by simp)
      have hd := drainSteps_drains (j :: rest)
          ⟨th, j :: rest, true, false, 0, (j :: rest).length, tc, ps, lg, false⟩
          rfl rfl rfl rfl rfl hall
      simp only [List.length_cons] at hd
      simp [finishAllJobsImpl, hth, hd]

/-- Specification of `shutdownImpl` on a quiescent state: every queued
job runs, then the run flag drops and all threads are joined. -/
theorem shutdownImpl_spec (s : PoolState)
    (hc : s.crashed = false) (hr : s.runningTasks = 0)
    (hn : s.queuedTasks = s.jobQueue.length)
    (ht : s.threads = 0 → s.jobQueue = [])
    (hall : s.jobQueue.all (fun j => !j.throwsB) = true) :
    shutdownImpl s =
      some { s with execute := false, pause := false, threads := 0,
                    jobQueue := [], queuedTasks := 0,
                    execLog := s.execLog ++ s.jobQueue,
                    promises := runAll s.jobQueue s.promises } := by
  obtain ⟨th, jq, ex, pa, rt, qt, tc, ps, lg, cr⟩ := s
  simp only at hc hr hn ht hall ⊢
  subst hc hr hn
  have hf := finishAllJobsImpl_drains ⟨th, jq, true, false, 0, jq.length, tc, ps, lg, false⟩
      rfl rfl rfl rfl (fun h0 => ht h0) hall
  simp only at hf
  simp [shutdownImpl, hf, joinThreadsImpl]

/-- Reading a freshly appended cell gives the appended value. -/
theorem promAt_append (ps : List (Option Int)) (x : Option Int) :
    promAt (ps ++ [x]) ps.length = x := by
  induction ps with
  | nil => rfl
  | cons y ys ih => simp [promAt, ih]

/-- Writing a cell in bounds and reading it back gives the value written. -/
theorem promAt_set_self (ps : List (Option Int)) :
    ∀ i : Nat, i < ps.length → ∀ v : Option Int, promAt (ps.set i v) i = v := by
  induction ps with
  | nil => intro i h; simp at h
  | cons y ys ih =>
      intro i h v
      cases i with
      | zero => rfl
      | succ m =>
          simp only [List.set]
          exact ih m (by simpa using h) v

/-- Running jobs never changes the number of allocated promise cells. -/
theorem length_runAll (js : List JobAct) :
    ∀ ps : List (Option Int), (runAll js ps).length = ps.length := by
  induction js with
  | nil => intro ps; rfl
  | cons j rest ih =>
      intro ps
      show (runAll rest (runJobPure j ps)).length = ps.length
      rw [ih]
      cases j with
      | run _ _ => rfl
      | fulfill p f a t => simp [runJobPure]

/-- Running jobs in two groups runs the first group first. -/
theorem runAll_append (a b : List JobAct) :
    ∀ ps : List (Option Int), runAll (a ++ b) ps = runAll b (runAll a ps) := by
  induction a with
  | nil => intro ps; rfl
  | cons j rest ih =>
      intro ps
      show runAll (rest ++ b) (runJobPure j ps) = _
      rw [ih (runJobPure j ps)]
      rfl

/-
Claim theorems.
-/

/-- C1: submitting any list of jobs `js` to a running pool (live
workers, not paused, nothing pending) and then calling `finishAllJobs`
returns, and at that point the execution log is exactly `js` — every
submitted job has executed exactly once, none lost, none duplicated —
and both the pending count and the running count are zero. -/
theorem finishAllJobs_each_job_exactly_once (js : List JobAct) (s : PoolState)
    (hth : s.threads ≠ 0) (hp : s.pause = false) (hc : s.crashed = false)
    (hr : s.runningTasks = 0) (hq : s.jobQueue = []) (hqt : s.queuedTasks = 0)
    (hlog : s.execLog = [])
    (hall : js.all (fun j => !j.throwsB) = true) :
    ∃ s1 s2, submitAll js s = .ok s1 ∧ finishAllJobs s1 = some s2 ∧
      s2.execLog = js ∧ s2.queuedTasks = 0 ∧ s2.runningTasks = 0 ∧
      s2.jobQueue = [] := by
  obtain ⟨th, jq, ex, pa, rt, qt, tc, ps, lg, cr⟩ := s
  simp only at hth hp hc hr hq hqt hlog
  subst hp hc hr hq hqt hlog
  have hs := submitAll_appends js ⟨th, [], ex, false, 0, 0, tc, ps, [], false⟩ hth
  simp only [List.nil_append, Nat.zero_add] at hs
  have hf := finishAllJobsImpl_drains ⟨th, js, ex, false, 0, js.length, tc, ps, [], false⟩
      rfl rfl rfl rfl (fun h0 => absurd h0 hth) hall
  simp only at hf
  exact ⟨_, _, hs, hf, by simp, rfl, rfl, rfl⟩

/-- A closed instance of C1: two plain jobs on a fresh two-worker pool. -/
theorem finishAllJobs_each_job_exactly_once_w :
    ∃ s1 s2, submitAll [.run 0 false, .run 1 false] pool2 = .ok s1 ∧
      finishAllJobs s1 = some s2 ∧
      s2.execLog = [.run 0 false, .run 1 false] ∧ s2.queuedTasks = 0 ∧
      s2.runningTasks = 0 ∧ s2.jobQueue = [] :=
  finishAllJobs_each_job_exactly_once [.run 0 false, .run 1 false] pool2
    (by decide) rfl rfl rfl rfl rfl rfl (by decide)

/-- C5: the job an executor iteration hands to a worker is exactly the
head of the queue (pop-front, no reordering, no priority), and a full
drain executes the queued jobs in exactly their submission order. -/
theorem dequeue_order_is_fifo (s : PoolState) (j : JobAct) (rest : List JobAct)
    (hex : s.execute = true) (hp : s.pause = false) (hc : s.crashed = false)
    (hq : s.jobQueue = j :: rest) (hn : s.queuedTasks = s.jobQueue.length)
    (hall : s.jobQueue.all (fun jb => !jb.throwsB) = true) :
    (executorStep s).jobQueue = rest ∧
    (executorStep s).execLog = s.execLog ++ [j] ∧
    (drainSteps s.queuedTasks s).execLog = s.execLog ++ (j :: rest) := by
  rw [hq, List.all_cons, Bool.and_eq_true] at hall
  have hthr : j.throwsB = false := by simpa using hall.1
  have hstep := executorStep_dequeues s j rest hex hp hc hq hn hthr
  have hfuel : s.queuedTasks = (j :: rest).length := by rw [hn, hq]
  have hd := drainSteps_drains (j :: rest) s hex hp hc hq hfuel
      (by rw [List.all_cons, Bool.and_eq_true]; exact ⟨by simp [hthr], hall.2⟩)
  rw [hstep, hfuel, hd]
  exact ⟨rfl, rfl, rfl⟩

/-- A closed instance of C5 on a two-worker pool with two queued jobs. -/
theorem dequeue_order_is_fifo_w :
    (executorStep pool2Queued).jobQueue = [.run 1 false] ∧
    (executorStep pool2Queued).execLog = [] ++ [.run 0 false] ∧
    (drainSteps pool2Queued.queuedTasks pool2Queued).execLog =
      [] ++ ([.run 0 false, .run 1 false]) :=
  dequeue_order_is_fifo pool2Queued (.run 0 false) [.run 1 false]
    rfl rfl rfl rfl rfl (by decide)

/-- C2: with zero workers (the pool was shut down and not yet reset),
`queueJob` raises the runtime error — the caller sees the failure, the
job is not enqueued — and after `reset n` with a positive thread count
a submission succeeds again and the job lands in the queue. -/
theorem submit_after_shutdown_errors_reset_recovers (s : PoolState) (j : JobAct)
    (n : Nat) (h0 : s.threads = 0) (hq : s.jobQueue = []) (hqt : s.queuedTasks = 0)
    (hr : s.runningTasks = 0) (hc : s.crashed = false) (hn : 0 < n) :
    queueJob j s = .error shutdownErrorMsg ∧
    ∃ s1, reset n s = some s1 ∧ s1.threads = n ∧
      ∃ s2, queueJob j s1 = .ok s2 ∧ s2.jobQueue = s1.jobQueue ++ [j] := by
  obtain ⟨th, jq, ex, pa, rt, qt, tc, ps, lg, cr⟩ := s
  simp only at h0 hq hqt hr hc
  subst h0 hq hqt hr hc
  have hsd := shutdownImpl_spec ⟨0, [], ex, pa, 0, 0, tc, ps, lg, false⟩
      rfl rfl rfl (fun _ => rfl) (by simp)
  simp only [runAll, List.foldl, List.append_nil] at hsd
  have hn' : n ≠ 0 := Nat.pos_iff_ne_zero.mp hn
  have hrs : reset n (⟨0, [], ex, pa, 0, 0, tc, ps, lg, false⟩ : PoolState) =
      some ⟨n, [], true, false, 0, 0, n, ps, lg, false⟩ := by
    simp only [reset, hsd, init]
    simp
  have hqj : queueJob j (⟨n, [], true, false, 0, 0, n, ps, lg, false⟩ : PoolState) =
      .ok ⟨n, [j], true, false, 0, 1, n, ps, lg, false⟩ := by
    simp [queueJob, hn']
  exact ⟨by simp [queueJob], ⟨_, hrs, rfl, ⟨_, hqj, rfl⟩⟩⟩

/-- A closed instance of C2: a shut-down pool rejects a job, and after
`reset 2` accepts it. -/
theorem submit_after_shutdown_errors_reset_recovers_w :
    queueJob (.run 7 false) shutPool = .error shutdownErrorMsg ∧
    ∃ s1, reset 2 shutPool = some s1 ∧ s1.threads = 2 ∧
      ∃ s2, queueJob (.run 7 false) s1 = .ok s2 ∧
        s2.jobQueue = s1.jobQueue ++ [.run 7 false] :=
  submit_after_shutdown_errors_reset_recovers shutPool (.run 7 false) 2
    rfl rfl rfl rfl rfl (by decide)

/-- C6: on a quiescent pool, `pause` returns with the running count
zero (no worker mid-execution), the pending queue — contents, order and
count — is exactly what it was before the call, nothing extra has been
executed, and while the pause flag is up no number of executor
iterations dequeues anything: queued jobs can only start once the flag
is cleared by `resume`. -/
theorem pause_quiesces_and_preserves_queue (s : PoolState)
    (hr : s.runningTasks = 0) :
    ∃ sp, pausePool s = some sp ∧ sp.runningTasks = 0 ∧ sp.pause = true ∧
      sp.jobQueue = s.jobQueue ∧ sp.queuedTasks = s.queuedTasks ∧
      sp.execLog = s.execLog ∧
      (∀ n, drainSteps n sp = sp) ∧ (resume sp).pause = false := by
  refine ⟨{ s with pause := true }, ?_, by simpa using hr, rfl, rfl, rfl, rfl, ?_, rfl⟩
  · rw [pausePool, pauseImpl]
    simp [hr]
  · intro n
    exact drainSteps_of_paused n _ rfl

/-- A closed instance of C6 on a pool with two queued jobs. -/
theorem pause_quiesces_and_preserves_queue_w :
    ∃ sp, pausePool pool2Queued = some sp ∧ sp.runningTasks = 0 ∧
      sp.pause = true ∧ sp.jobQueue = pool2Queued.jobQueue ∧
      sp.queuedTasks = pool2Queued.queuedTasks ∧
      sp.execLog = pool2Queued.execLog ∧
      (∀ n, drainSteps n sp = sp) ∧ (resume sp).pause = false :=
  pause_quiesces_and_preserves_queue pool2Queued rfl

/-- C7: `setThreadCount 0` is literally a `shutdown` call; for positive
`n` the resize quiesces without discarding the queue (nothing is
executed by the resize itself), joins the current workers, starts
exactly `n` fresh ones and resumes — the pending queue survives intact
and a subsequent `finishAllJobs` still executes exactly those surviving
jobs. -/
theorem setThreadCount_resizes_preserving_queue (s : PoolState) (n : Nat)
    (hr : s.runningTasks = 0) (hc : s.crashed = false)
    (hn : s.queuedTasks = s.jobQueue.length)
    (hall : s.jobQueue.all (fun j => !j.throwsB) = true)
    (hpos : 0 < n) :
    setThreadCount 0 s = shutdown s ∧
    ∃ s1, setThreadCount n s = some s1 ∧
      s1.jobQueue = s.jobQueue ∧ s1.queuedTasks = s.queuedTasks ∧
      s1.threads = n ∧ s1.pause = false ∧ s1.execute = true ∧
      s1.execLog = s.execLog ∧
      ∃ s2, finishAllJobs s1 = some s2 ∧
        s2.execLog = s.execLog ++ s.jobQueue ∧ s2.queuedTasks = 0 := by
  obtain ⟨th, jq, ex, pa, rt, qt, tc, ps, lg, cr⟩ := s
  simp only at hr hc hn hall
  subst hr hc hn
  have hn' : n ≠ 0 := Nat.pos_iff_ne_zero.mp hpos
  constructor
  · simp [setThreadCount]
  · have hps : pauseImpl (⟨th, jq, ex, pa, 0, jq.length, n, ps, lg, false⟩ : PoolState) =
        some ⟨th, jq, ex, true, 0, jq.length, n, ps, lg, false⟩ := by
      simp [pauseImpl]
    have hsc : setThreadCount n (⟨th, jq, ex, pa, 0, jq.length, tc, ps, lg, false⟩ : PoolState) =
        some ⟨n, jq, true, false, 0, jq.length, n, ps, lg, false⟩ := by
      simp only [setThreadCount, if_neg hn', hps]
      simp [resume, init, joinThreadsImpl]
    have hf := finishAllJobsImpl_drains
        ⟨n, jq, true, false, 0, jq.length, n, ps, lg, false⟩
        rfl rfl rfl rfl (fun h0 => absurd h0 hn') hall
    exact ⟨_, hsc, rfl, rfl, rfl, rfl, rfl, rfl, _, hf, rfl, rfl⟩

/-- A closed instance of C7: resizing a pool with two queued jobs down
to one worker keeps both jobs queued; they run on the next drain. -/
theorem setThreadCount_resizes_preserving_queue_w :
    setThreadCount 0 pool2Queued = shutdown pool2Queued ∧
    ∃ s1, setThreadCount 1 pool2Queued = some s1 ∧
      s1.jobQueue = pool2Queued.jobQueue ∧
      s1.queuedTasks = pool2Queued.queuedTasks ∧
      s1.threads = 1 ∧ s1.pause = false ∧ s1.execute = true ∧
      s1.execLog = pool2Queued.execLog ∧
      ∃ s2, finishAllJobs s1 = some s2 ∧
        s2.execLog = pool2Queued.execLog ++ pool2Queued.jobQueue ∧
        s2.queuedTasks = 0 :=
  setThreadCount_resizes_preserving_queue pool2Queued 1 rfl rfl rfl
    (by decide) (by decide)

/-- C8: `reset n` first drains — every job queued before the call is
executed, appended to the log in queue order — and only then restarts:
the restarted pool has exactly `n` workers, an empty queue and a zero
pending count, so no queued job is carried across the restart (they
have all already run). -/
theorem reset_drains_then_restarts (s : PoolState) (n : Nat)
    (hc : s.crashed = false) (hr : s.runningTasks = 0)
    (hn : s.queuedTasks = s.jobQueue.length)
    (ht : s.threads = 0 → s.jobQueue = [])
    (hall : s.jobQueue.all (fun j => !j.throwsB) = true) :
    ∃ s1, reset n s = some s1 ∧
      s1.execLog = s.execLog ++ s.jobQueue ∧
      s1.jobQueue = [] ∧ s1.queuedTasks = 0 ∧
      s1.threads = n ∧ s1.execute = true ∧ s1.threadCount = n := by
  obtain ⟨th, jq, ex, pa, rt, qt, tc, ps, lg, cr⟩ := s
  simp only at hc hr hn ht hall
  subst hc hr hn
  have hsd := shutdownImpl_spec ⟨th, jq, ex, pa, 0, jq.length, tc, ps, lg, false⟩
      rfl rfl rfl ht hall
  simp only at hsd
  have hrs : reset n (⟨th, jq, ex, pa, 0, jq.length, tc, ps, lg, false⟩ : PoolState) =
      some ⟨n, [], true, false, 0, 0, n, runAll jq ps, lg ++ jq, false⟩ := by
    simp only [reset, hsd, init]
    simp
  exact ⟨_, hrs, rfl, rfl, rfl, rfl, rfl, rfl⟩

/-- A closed instance of C8: resetting a pool with two queued jobs to
three workers runs both jobs first, then restarts empty. -/
theorem reset_drains_then_restarts_w :
    ∃ s1, reset 3 pool2Queued = some s1 ∧
      s1.execLog = pool2Queued.execLog ++ pool2Queued.jobQueue ∧
      s1.jobQueue = [] ∧ s1.queuedTasks = 0 ∧
      s1.threads = 3 ∧ s1.execute = true ∧ s1.threadCount = 3 :=
  reset_drains_then_restarts pool2Queued 3 rfl rfl rfl
    (fun h0 => absurd h0 (by decide)) (by decide)

/-- C9: `submitForReturn` hands back the future immediately — the fresh
promise cell exists but is still unwritten before any execution, so a
`wait_for` at that point would time out — and once the workers drain
(`finishAllJobs` returns) the cell holds exactly the job applied to its
argument: a blocking `get` yields `f arg` and polling now reports
non-timeout. -/
theorem submitForReturn_round_trip (s : PoolState) (f : Int → Int) (arg : Int)
    (hth : s.threads ≠ 0) (hp : s.pause = false) (hc : s.crashed = false)
    (hr : s.runningTasks = 0) (hn : s.queuedTasks = s.jobQueue.length)
    (hall : s.jobQueue.all (fun j => !j.throwsB) = true) :
    ∃ s1, (submitForReturn f arg false s).2 = .ok s1 ∧
      (submitForReturn f arg false s).1 = s.promises.length ∧
      promAt s1.promises (submitForReturn f arg false s).1 = none ∧
      ∃ s2, finishAllJobs s1 = some s2 ∧
        promAt s2.promises (submitForReturn f arg false s).1 = some (f arg) := by
  obtain ⟨th, jq, ex, pa, rt, qt, tc, ps, lg, cr⟩ := s
  simp only at hth hp hc hr hn hall
  subst hp hc hr hn
  refine ⟨⟨th, jq ++ [.fulfill ps.length f arg false], ex, false, 0, jq.length + 1,
           tc, ps ++ [none], lg, false⟩, ?_, rfl, ?_, ?_⟩
  · simp [submitForReturn, submit, queueJob, hth]
  · show promAt (ps ++ [none]) ps.length = none
    exact promAt_append ps none
  · have hf := finishAllJobsImpl_drains
        ⟨th, jq ++ [.fulfill ps.length f arg false], ex, false, 0, jq.length + 1,
         tc, ps ++ [none], lg, false⟩
        rfl rfl rfl (by simp) (fun h0 => absurd h0 hth)
        (by rw [List.all_append, hall]; rfl)
    refine ⟨_, hf, ?_⟩
    show promAt (runAll (jq ++ [.fulfill ps.length f arg false]) (ps ++ [none]))
        ps.length = some (f arg)
    rw [runAll_append]
    show promAt ((runAll jq (ps ++ [none])).set ps.length (some (f arg))) ps.length = _
    refine promAt_set_self _ ps.length ?_ _
    rw [length_runAll]
    simp

/-- A closed instance of C9: squaring 125 through the pool yields a
future that resolves to 15625 after the drain. -/
theorem submitForReturn_round_trip_w :
    ∃ s1, (submitForReturn (fun x => x * x) 125 false pool2).2 = .ok s1 ∧
      (submitForReturn (fun x => x * x) 125 false pool2).1 = pool2.promises.length ∧
      promAt s1.promises (submitForReturn (fun x => x * x) 125 false pool2).1 = none ∧
      ∃ s2, finishAllJobs s1 = some s2 ∧
        promAt s2.promises
          (submitForReturn (fun x => x * x) 125 false pool2).1 = some 15625 :=
  submitForReturn_round_trip pool2 (fun x => x * x) 125
    (by decide) rfl rfl rfl rfl (by decide)

/-- C3 counterexample: on a shut-down pool (zero workers, configured
thread count 4), `resume` clears the pause flag but the worker set
stays empty — "whenever the pool has zero Workers, resume()
additionally restarts Workers at the configured target thread count,
so that after resume() the pool has a non-zero set of live Workers" is
false at this state: `resume` is only `m_pause = false;`. -/
theorem resume_restarts_workers_cex :
    (resume shutPausedPool).pause = false ∧
    shutPausedPool.threads = 0 ∧ shutPausedPool.threadCount = 4 ∧
    ¬ (resume shutPausedPool).threads ≠ 0 :=
  ⟨rfl, rfl, rfl, fun h => h rfl⟩

/-- C3 (amended): `resume` clears the pause flag and does nothing else:
the worker set and the rest of the state are untouched, so a pool shut
down to zero workers still has zero workers — and still rejects
submissions — after `resume`; only `reset`/`setThreadCount` recreate
workers. -/
theorem resume_only_clears_pause (s : PoolState) (j : JobAct)
    (h0 : s.threads = 0) :
    (resume s).pause = false ∧ (resume s).threads = s.threads ∧
    (resume s).jobQueue = s.jobQueue ∧ (resume s).execute = s.execute ∧
    (resume s).execLog = s.execLog ∧
    queueJob j (resume s) = .error shutdownErrorMsg := by
  refine ⟨rfl, rfl, rfl, rfl, rfl, ?_⟩
  simp [queueJob, resume, h0]

/-- A closed instance of the amended C3 on a shut-down paused pool. -/
theorem resume_only_clears_pause_w :
    (resume shutPausedPool).pause = false ∧
    (resume shutPausedPool).threads = shutPausedPool.threads ∧
    (resume shutPausedPool).jobQueue = shutPausedPool.jobQueue ∧
    (resume shutPausedPool).execute = shutPausedPool.execute ∧
    (resume shutPausedPool).execLog = shutPausedPool.execLog ∧
    queueJob (.run 5 false) (resume shutPausedPool) = .error shutdownErrorMsg :=
  resume_only_clears_pause shutPausedPool (.run 5 false) rfl

/-- C4 counterexample: `crashPool` holds one return-value job whose
callable throws.  Executing it sets the crash flag — the exception
escapes `executor`, which has no handler, so the worker thread (and
with it the process) dies — the job's promise cell is never written,
so no waiter observes the failure through the future, and
`finishAllJobs` never returns.  This refutes "the Worker thread
executing it does not crash and the process is not terminated; the
failure is propagated to that job's Completion Bridge". -/
theorem job_exception_not_contained_cex :
    (executorStep crashPool).crashed = true ∧
    promAt (executorStep crashPool).promises 0 = none ∧
    finishAllJobs crashPool = none :=
  ⟨rfl, rfl, rfl⟩

/-- C4 (amended): a throwing job is not contained by the pool: the
executor calls the dequeued job with no handler, so the exception
escapes the worker thread and the process terminates; the job's
promise store is untouched (a waiting caller never observes a value),
and `finishAllJobs` can never return afterwards. -/
theorem job_exception_escapes_executor (s : PoolState) (p : Nat) (f : Int → Int)
    (a : Int) (rest : List JobAct)
    (hex : s.execute = true) (hp : s.pause = false) (hc : s.crashed = false)
    (hq : s.jobQueue = .fulfill p f a true :: rest)
    (hn : s.queuedTasks = s.jobQueue.length) (hr : s.runningTasks = 0) :
    (executorStep s).crashed = true ∧
    (executorStep s).promises = s.promises ∧
    finishAllJobs s = none := by
  obtain ⟨th, jq, ex, pa, rt, qt, tc, ps, lg, cr⟩ := s
  simp only at hex hp hc hq hn hr
  subst hex hp hc hq hn hr
  have hstep : executorStep ⟨th, JobAct.fulfill p f a true :: rest, true, false, 0,
      (JobAct.fulfill p f a true :: rest).length, tc, ps, lg, false⟩ =
      ⟨th, rest, true, false, 1, rest.length, tc, ps, lg, true⟩ := by
    simp [executorStep, runJob, JobAct.throwsB]
  refine ⟨by rw [hstep], by rw [hstep], ?_⟩
  simp only [List.length_cons] at hstep
  by_cases hth : th = 0
  · simp [finishAllJobs, finishAllJobsImpl, hth]
  · have hcr := drainSteps_of_crashed rest.length
        ⟨th, rest, true, false, 1, rest.length, tc, ps, lg, true⟩ rfl
    simp [finishAllJobs, finishAllJobsImpl, hth, drainSteps, hstep, hcr]

/-- A closed instance of the amended C4 at `crashPool`. -/
theorem job_exception_escapes_executor_w :
    (executorStep crashPool).crashed = true ∧
    (executorStep crashPool).promises = crashPool.promises ∧
    finishAllJobs crashPool = none :=
  job_exception_escapes_executor crashPool 0 (fun x => x * x) 125 []
    rfl rfl rfl rfl rfl rfl

/-- Positive increment: the submission loop of `forEachIndexed`
terminates, submitting each index of the arithmetic progression below
`stop` exactly once. -/
theorem forEachIndexedLoop_pos (inc stop : Int) (hinc : 0 < inc) :
    ∀ n : Nat, ∀ a : Int, (stop - a).toNat = n →
      ∃ fuel r, forEachIndexedLoop fuel a stop inc = some r ∧
        r.Nodup ∧ ∀ x : Int, x ∈ r ↔ ∃ k : Nat, x = a + inc * k ∧ x < stop := by
  intro n
  induction n using Nat.strong_induction_on with
  | _ n ih =>
      intro a hn
      by_cases hab : a < stop
      · obtain ⟨fuel, r, hr, hnd, hmem⟩ :=
          ih (stop - (a + inc)).toNat (by omega) (a + inc) rfl
        refine ⟨fuel + 1, a :: r, ?_, ?_, ?_⟩
        · simp [forEachIndexedLoop, hab, hr]
        · refine List.nodup_cons.mpr ⟨?_, hnd⟩
          intro hmem'
          obtain ⟨k, hk, _⟩ := (hmem a).mp hmem'
          have h1 : (0:Int) ≤ inc * k := mul_nonneg hinc.le (Int.natCast_nonneg k)
          linarith
        · intro x
          rw [List.mem_cons, hmem x]
          constructor
          · rintro (rfl | ⟨k, hk, hx⟩)
            · exact ⟨0, by simp, hab⟩
            · exact ⟨k + 1, by rw [hk]; push_cast; ring, hx⟩
          · rintro ⟨k, hk, hx⟩
            cases k with
            | zero => left; simpa using hk
            | succ m => right; exact ⟨m, by rw [hk]; push_cast; ring, hx⟩
      · refine ⟨1, [], by simp [forEachIndexedLoop, hab], List.nodup_nil, ?_⟩
        intro x
        simp only [List.not_mem_nil, false_iff]
        rintro ⟨k, hk, hx⟩
        have h1 : (0:Int) ≤ inc * k := mul_nonneg hinc.le (Int.natCast_nonneg k)
        have h2 : stop ≤ a := not_lt.mp hab
        rw [hk] at hx
        linarith

/-- Non-positive increment on a non-empty range: the loop condition
stays true forever, so the loop never finishes with any fuel. -/
theorem forEachIndexedLoop_nonpos (stop inc : Int) (hinc : inc ≤ 0) :
    ∀ fuel : Nat, ∀ a : Int, a < stop →
      forEachIndexedLoop fuel a stop inc = none := by
  intro fuel
  induction fuel with
  | zero => intro a _; rfl
  | succ m ih =>
      intro a hab
      simp only [forEachIndexedLoop]
      rw [if_pos hab, ih (a + inc) (by omega)]

/-- C10: the `forEachIndexed` submission loop terminates when the range
is empty (no job submitted) or the increment is positive — submitting
exactly one waitable job per index of the arithmetic progression
`from, from + increment, ...` below `to`, each index exactly once —
and for a non-empty range with a non-positive increment the loop never
terminates, however many iterations it is granted. -/
theorem forEachIndexed_submits_iff_terminates (a stop inc : Int) :
    (stop ≤ a → forEachIndexedLoop 1 a stop inc = some []) ∧
    (0 < inc → ∃ fuel r, forEachIndexedLoop fuel a stop inc = some r ∧
      r.Nodup ∧ ∀ x : Int, x ∈ r ↔ ∃ k : Nat, x = a + inc * k ∧ x < stop) ∧
    (a < stop → inc ≤ 0 → ∀ fuel, forEachIndexedLoop fuel a stop inc = none) := by
  refine ⟨?_, ?_, ?_⟩
  · intro h
    simp [forEachIndexedLoop, not_lt.mpr h]
  · intro hinc
    exact forEachIndexedLoop_pos inc stop hinc (stop - a).toNat a rfl
  · intro hab hinc fuel
    exact forEachIndexedLoop_nonpos stop inc hinc fuel a hab

/-- A closed instance of C10: with increment 1 the loop over `[0, 3)`
terminates and submits exactly the indices below 3; with increment 0 it
never finishes. -/
theorem forEachIndexed_submits_iff_terminates_w :
    (∃ fuel r, forEachIndexedLoop fuel 0 3 1 = some r ∧ r.Nodup ∧
      ∀ x : Int, x ∈ r ↔ ∃ k : Nat, x = 0 + 1 * k ∧ x < 3) ∧
    (∀ fuel, forEachIndexedLoop fuel 0 3 0 = none) :=
  ⟨(forEachIndexed_submits_iff_terminates 0 3 1).2.1 (by decide),
   (forEachIndexed_submits_iff_terminates 0 3 0).2.2 (by decide) (by decide)⟩

end TnT
